import Mathlib

/-!
Verification of the pquiver repository (oamap schema / dataset layer and the
arrowed compiler) against its natural-language specification.

The Python sources are shallowly embedded: pure functions become Lean
functions, raised exceptions become an explicit `Except PyErr` result,
sequences become `List Int`, and `numpy.searchsorted(..., side="right")`
becomes a count of elements less than or equal to the probe.
-/

/-- Python exception kinds raised by the embedded code paths. -/
inductive PyErr
  | typeError
  | valueError
  | indexError
  | nameError
  deriving Repr, DecidableEq

/-! ## Dataset construction (src/oamap/dataset.py) -/

/-- Adjacent-pair monotonicity test, the embedding of
`numpy.all(offsets[:-1] <= offsets[1:])` in Dataset.__init__
(src/oamap/dataset.py line 135). -/
def adjMonoB (l : List Int) : Bool :=
  (l.zip l.tail).all (fun p => decide (p.1 ≤ p.2))

/-- Embedding of the offsets validation in Dataset.__init__
(src/oamap/dataset.py lines 124-137), for the path where `offsets` is a plain
Python sequence of integers (the embedding represents sequences as `List Int`,
so the separate one-dimensionality check on a preexisting ndarray cannot fail
here).  The checks run in source order: elementwise non-negative integers
(TypeError), then length at least two with a zero first element (ValueError),
then adjacent monotonicity (ValueError). -/
def datasetInit (offsets : List Int) : Except PyErr (List Int) :=
  if ¬ offsets.all (fun x => decide (0 ≤ x)) then .error .typeError
  else if offsets.length < 2 ∨ offsets.headD 1 ≠ 0 then .error .valueError
  else if ¬ adjMonoB offsets then .error .valueError
  else .ok offsets

/-- Dataset.numentries: `int(self._offsets[-1])` (src/oamap/dataset.py line 164). -/
def dsNumentries (offsets : List Int) : Int :=
  offsets.getLastD 0

/-- Dataset.numpartitions: `len(self._offsets) - 1` (src/oamap/dataset.py line 160). -/
def dsNumpartitions (offsets : List Int) : Nat :=
  offsets.length - 1

/-- The invariant a successfully constructed Dataset's offsets satisfy. -/
def validOffsetsB (l : List Int) : Bool :=
  l.all (fun x => decide (0 ≤ x)) && decide (2 ≤ l.length) &&
    decide (l.headD 1 = 0) && adjMonoB l

theorem datasetInit_ok_iff (l : List Int) :
    datasetInit l = .ok l ↔ validOffsetsB l = true := by
  unfold datasetInit validOffsetsB
  constructor
  · intro h
    split at h
    · exact absurd h (by simp)
    · split at h
      · exact absurd h (by simp)
      · split at h
        · exact absurd h (by simp)
        · rename_i h1 h2 h3
          simp only [not_not] at h1 h3
          push_neg at h2
          simp only [Bool.and_eq_true, decide_eq_true_eq]
          exact ⟨⟨⟨h1, by omega⟩, h2.2⟩, h3⟩
  · intro h
    simp only [Bool.and_eq_true, decide_eq_true_eq] at h
    obtain ⟨⟨⟨h1, h2⟩, h3⟩, h4⟩ := h
    rw [if_neg (by simp [h1]), if_neg (by omega), if_neg (by simp [h4])]

/-! ## Monotone-offsets helper lemmas -/

theorem adjMonoB_cons_cons {a b : Int} {t : List Int} :
    adjMonoB (a :: b :: t) = (decide (a ≤ b) && adjMonoB (b :: t)) := by
  simp [adjMonoB]

theorem adjMonoB_tail {a : Int} {t : List Int} (h : adjMonoB (a :: t) = true) :
    adjMonoB t = true := by
  cases t with
  | nil => rfl
  | cons b t2 =>
    rw [adjMonoB_cons_cons, Bool.and_eq_true] at h
    exact h.2

theorem head_le_of_adjMono {a : Int} {t : List Int} (h : adjMonoB (a :: t) = true) :
    ∀ x ∈ t, a ≤ x := by
  induction t generalizing a with
  | nil => intro x hx; cases hx
  | cons b t2 ih =>
    rw [adjMonoB_cons_cons, Bool.and_eq_true, decide_eq_true_eq] at h
    intro x hx
    rcases List.mem_cons.mp hx with rfl | hx2
    · exact h.1
    · exact le_trans h.1 (ih h.2 x hx2)

theorem mono_getD {l : List Int} (h : adjMonoB l = true) :
    ∀ i j : Nat, i ≤ j → j < l.length → l.getD i 0 ≤ l.getD j 0 := by
  induction l with
  | nil => intro i j _ hj; cases hj
  | cons a t ih =>
    intro i j hij hj
    cases i with
    | zero =>
      cases j with
      | zero => simp
      | succ j2 =>
        simp only [List.getD_cons_zero, List.getD_cons_succ]
        have hmem : t.getD j2 0 ∈ t := by
          rw [List.getD_eq_getElem t 0 (by simpa using hj)]
          exact List.getElem_mem _
        exact head_le_of_adjMono h _ hmem
    | succ i2 =>
      cases j with
      | zero => omega
      | succ j2 =>
        simp only [List.getD_cons_succ]
        exact ih (adjMonoB_tail h) i2 j2 (by omega) (by simpa using hj)

/-- searchsorted with side right: the number of elements less than or equal to
the probe (`numpy.searchsorted(self._offsets, v, side="right")`). -/
def searchsortedRight (l : List Int) (v : Int) : Nat :=
  l.countP (fun x => decide (x ≤ v))

/-- On a monotone list, position i is below the right-searchsorted insertion
point exactly when the element at i is at most the probe. -/
theorem searchsortedRight_char {l : List Int} (h : adjMonoB l = true) (v : Int) :
    ∀ i : Nat, i < l.length → (i < searchsortedRight l v ↔ l.getD i 0 ≤ v) := by
  induction l with
  | nil => intro i hi; cases hi
  | cons a t ih =>
    intro i hi
    rw [searchsortedRight, List.countP_cons]
    by_cases ha : a ≤ v
    · rw [if_pos (by simpa using ha)]
      cases i with
      | zero => simpa using ha
      | succ i2 =>
        simp only [List.getD_cons_succ]
        rw [show t.countP (fun x => decide (x ≤ v)) + 1 = searchsortedRight t v + 1 from rfl]
        have := ih (adjMonoB_tail h) i2 (by simpa using hi)
        omega
    · rw [if_neg (by simpa using ha)]
      have hz : t.countP (fun x => decide (x ≤ v)) = 0 := by
        rw [List.countP_eq_zero]
        intro x hx
        have := head_le_of_adjMono h x hx
        simp only [decide_eq_true_eq]
        omega
      rw [hz]
      cases i with
      | zero => simpa using ha
      | succ i2 =>
        simp only [List.getD_cons_succ]
        have hmem : t.getD i2 0 ∈ t := by
          rw [List.getD_eq_getElem t 0 (by simpa using hi)]
          exact List.getElem_mem _
        have := head_le_of_adjMono h _ hmem
        constructor
        · omega
        · intro hle; omega

theorem getLastD_eq_getD {l : List Int} (h : l ≠ []) (d : Int) :
    l.getLastD d = l.getD (l.length - 1) 0 := by
  induction l generalizing d with
  | nil => exact absurd rfl h
  | cons a t ih =>
    cases t with
    | nil => simp
    | cons b t2 =>
      rw [List.getLastD_cons, ih (by simp) a]
      simp only [List.length_cons, Nat.add_sub_cancel, List.getD_cons_succ]

/-- Unpacks the validity invariant into its four working facts. -/
theorem validOffsets_facts {l : List Int} (h : validOffsetsB l = true) :
    (∀ x ∈ l, 0 ≤ x) ∧ 2 ≤ l.length ∧ l.getD 0 0 = 0 ∧ adjMonoB l = true := by
  unfold validOffsetsB at h
  simp only [Bool.and_eq_true, decide_eq_true_eq, List.all_eq_true] at h
  obtain ⟨⟨⟨h1, h2⟩, h3⟩, h4⟩ := h
  refine ⟨fun x hx => by simpa using h1 x hx, h2, ?_, h4⟩
  cases l with
  | nil => simp at h2
  | cons a t => simpa using h3

theorem dsNumentries_nonneg {l : List Int} (h : validOffsetsB l = true) :
    0 ≤ dsNumentries l := by
  obtain ⟨hnn, hlen, hhead, hmono⟩ := validOffsets_facts h
  rw [dsNumentries, getLastD_eq_getD (by intro he; subst he; simp at hlen) 0]
  have := mono_getD hmono 0 (l.length - 1) (by omega) (by omega)
  omega

theorem adjMonoB_of_getD :
    ∀ l : List Int,
      (∀ i : Nat, i + 1 < l.length → l.getD i 0 ≤ l.getD (i + 1) 0) →
        adjMonoB l = true := by
  intro l
  induction l with
  | nil => intro _; rfl
  | cons a t ih =>
    intro h
    cases t with
    | nil => rfl
    | cons b t2 =>
      rw [adjMonoB_cons_cons, Bool.and_eq_true]
      refine ⟨by simpa using h 0 (by simp), ih ?_⟩
      intro i hi
      simpa using h (i + 1) (by simpa using hi)

theorem adjMonoB_iff_getD (l : List Int) :
    adjMonoB l = true ↔
      ∀ i : Nat, i + 1 < l.length → l.getD i 0 ≤ l.getD (i + 1) 0 := by
  constructor
  · intro h i hi
    exact mono_getD h i (i + 1) (by omega) hi
  · exact adjMonoB_of_getD l

/-! ## Dataset indexing (src/oamap/dataset.py lines 169-204) -/

/-- The normalized integer index: `index if index >= 0 else index + self.numentries`
(src/oamap/dataset.py line 171). -/
def normIdx (offsets : List Int) (index : Int) : Int :=
  if 0 ≤ index then index else index + dsNumentries offsets

/-- Embedding of the integer branch of Dataset.__getitem__
(src/oamap/dataset.py lines 170-176): normalize, bounds-check, locate the
partition by right-searchsorted, and return the (partitionid, localindex)
pair handed to that partition's proxy. -/
def dsGetInt (offsets : List Int) (index : Int) : Except PyErr (Nat × Int) :=
  if ¬ (0 ≤ normIdx offsets index ∧ normIdx offsets index < dsNumentries offsets) then
    .error .indexError
  else
    .ok (searchsortedRight offsets (normIdx offsets index) - 1,
      normIdx offsets index -
        offsets.getD (searchsortedRight offsets (normIdx offsets index) - 1) 0)

/-- The window fields set on the proxy returned by the slice branch of
Dataset.__getitem__: the partition it is scoped to and the adjusted
_whence/_stride/_length. -/
structure SliceView where
  partitionid : Nat
  whence : Int
  stride : Int
  vlength : Int
  deriving Repr, DecidableEq

/-- Modelled from the spec: `oamap.util.slice2sss` is not part of src; the
spec says the slice branch normalizes "via standard start/stop/step
resolution", so this is CPython's slice.indices algorithm (a None step reads
as 1, a zero step is an error, negative endpoints count from the end, and
endpoints clamp to [0, n] for a positive step and [-1, n-1] for a negative
one). -/
def sliceClamp (v : Option Int) (dflt lowerB upperB n : Int) : Int :=
  match v with
  | none => dflt
  | some s => if s < 0 then max (s + n) lowerB else min s upperB

def slice2sss (lower upper step : Option Int) (n : Int) : Except PyErr (Int × Int × Int) :=
  if step.getD 1 = 0 then .error .valueError
  else if 0 < step.getD 1 then
    .ok (sliceClamp lower 0 0 n n, sliceClamp upper n 0 n n, step.getD 1)
  else
    .ok (sliceClamp lower (n - 1) (-1) (n - 1) n, sliceClamp upper (-1) (-1) (n - 1) n,
      step.getD 1)

/-- The clamped partition id the slice branch computes:
`max(0, min(numpy.searchsorted(self._offsets, start, side="right") - 1,
self.numpartitions - 1))` (src/oamap/dataset.py line 180). -/
def slicePid (offsets : List Int) (start : Int) : Nat :=
  (max 0 (min ((searchsortedRight offsets start : Int) - 1)
    ((dsNumpartitions offsets : Int) - 1))).toNat

/-- Embedding of the slice branch of Dataset.__getitem__ after slice
resolution (src/oamap/dataset.py lines 180-193): clamp the right-searchsorted
partition of the resolved start, bounds-check the partition-local stop, and
build the windowed view; the length is divmod-based,
`d + (1 if m != 0 else 0)` for `d, m = divmod(abs(localstart - localstop), abs(step))`. -/
def dsSliceCore (offsets : List Int) (start stop st : Int) : Except PyErr SliceView :=
  if stop - offsets.getD (slicePid offsets start) 0 < -1 ∨
      offsets.getD (slicePid offsets start + 1) 0 - offsets.getD (slicePid offsets start) 0 <
        stop - offsets.getD (slicePid offsets start) 0 then
    .error .indexError
  else
    .ok ⟨slicePid offsets start, start - offsets.getD (slicePid offsets start) 0, st,
      ((((start - offsets.getD (slicePid offsets start) 0) -
          (stop - offsets.getD (slicePid offsets start) 0)).natAbs / st.natAbs : Nat) : Int) +
        (if ((start - offsets.getD (slicePid offsets start) 0) -
            (stop - offsets.getD (slicePid offsets start) 0)).natAbs % st.natAbs ≠ 0
          then 1 else 0)⟩

/-- The slice branch of Dataset.__getitem__ (src/oamap/dataset.py lines
178-193): resolve the slice against numentries, then index the partition. -/
def dsGetSlice (offsets : List Int) (lower upper step : Option Int) : Except PyErr SliceView :=
  match slice2sss lower upper step (dsNumentries offsets) with
  | .error e => .error e
  | .ok (start, stop, st) => dsSliceCore offsets start stop st

/-- The index argument of Dataset.__getitem__: an integer, a slice, or any
other kind of value (a string, a tuple, ...). -/
inductive PyIndex
  | intIdx (i : Int)
  | sliceIdx (lower upper step : Option Int)
  | otherIdx
  deriving Repr, DecidableEq

/-- What Dataset.__getitem__ produces on success. -/
inductive GetResult
  | entry (partitionid : Nat) (localindex : Int)
  | view (v : SliceView)
  deriving Repr, DecidableEq

/-- Embedding of the whole Dataset.__getitem__ (src/oamap/dataset.py lines
169-193): the isinstance(index, Integral) branch, the isinstance(index, slice)
branch, and the implicit `return None` fall-through for every other index
kind (`.ok none`). -/
def dsGetitem (offsets : List Int) : PyIndex → Except PyErr (Option GetResult)
  | .intIdx i => (dsGetInt offsets i).map (fun pl => some (.entry pl.1 pl.2))
  | .sliceIdx lower upper step => (dsGetSlice offsets lower upper step).map (fun v => some (.view v))
  | .otherIdx => .ok none

/-! ## Claim C9: offsets validation on Dataset construction -/

/-- C9: Dataset construction succeeds exactly when offsets is a sequence of
non-negative integers of length at least 2, first element zero, and
monotonically non-decreasing; any other offsets raises a typed error; on
success numentries is the last offset and numpartitions is one less than the
length. -/
theorem claim_C9_dataset_init_offsets (offsets : List Int) :
    ((∃ st, datasetInit offsets = .ok st) ↔
      ((∀ x ∈ offsets, 0 ≤ x) ∧ 2 ≤ offsets.length ∧ offsets.headD 1 = 0 ∧
        ∀ i : Nat, i + 1 < offsets.length → offsets.getD i 0 ≤ offsets.getD (i + 1) 0)) ∧
    (∀ st, datasetInit offsets = .ok st →
      st = offsets ∧ dsNumentries st = offsets.getLastD 0 ∧
        dsNumpartitions st = offsets.length - 1) ∧
    (¬ ((∀ x ∈ offsets, 0 ≤ x) ∧ 2 ≤ offsets.length ∧ offsets.headD 1 = 0 ∧
        ∀ i : Nat, i + 1 < offsets.length → offsets.getD i 0 ≤ offsets.getD (i + 1) 0) →
      ∃ e, datasetInit offsets = .error e) := by
  have hinit : ∀ st, datasetInit offsets = .ok st → st = offsets := by
    intro st h
    unfold datasetInit at h
    split at h
    · exact absurd h (by simp)
    · split at h
      · exact absurd h (by simp)
      · split at h
        · exact absurd h (by simp)
        · simpa using h.symm
  have hadj := adjMonoB_iff_getD offsets
  constructor
  · constructor
    · rintro ⟨st, hst⟩
      have he := hinit st hst
      rw [he] at hst
      have hv := (datasetInit_ok_iff offsets).mp hst
      obtain ⟨hnn, hlen, _, hmono⟩ := validOffsets_facts hv
      unfold validOffsetsB at hv
      simp only [Bool.and_eq_true, decide_eq_true_eq] at hv
      exact ⟨hnn, hlen, hv.1.2, hadj.mp hmono⟩
    · rintro ⟨h1, h2, h3, h4⟩
      refine ⟨offsets, (datasetInit_ok_iff offsets).mpr ?_⟩
      unfold validOffsetsB
      simp only [Bool.and_eq_true, decide_eq_true_eq, List.all_eq_true]
      exact ⟨⟨⟨fun x hx => by simpa using h1 x hx, h2⟩, h3⟩, hadj.mpr h4⟩
  constructor
  · intro st h
    have := hinit st h
    subst this
    exact ⟨rfl, rfl, rfl⟩
  · intro hbad
    rcases h : datasetInit offsets with e | st
    · exact ⟨e, rfl⟩
    · have he := hinit st h
      rw [he] at h
      have hv := (datasetInit_ok_iff offsets).mp h
      obtain ⟨hnn, hlen, _, hmono⟩ := validOffsets_facts hv
      unfold validOffsetsB at hv
      simp only [Bool.and_eq_true, decide_eq_true_eq] at hv
      exact absurd ⟨hnn, hlen, hv.1.2, hadj.mp hmono⟩ hbad

/-- Witness for C9 at the spec's own example offsets [0,3,7,10]. -/
theorem claim_C9_witness :
    (∃ st, datasetInit [(0 : Int), 3, 7, 10] = .ok st) ∧
      dsNumentries [(0 : Int), 3, 7, 10] = 10 ∧
      dsNumpartitions [(0 : Int), 3, 7, 10] = 3 := by
  refine ⟨(claim_C9_dataset_init_offsets [0, 3, 7, 10]).1.mpr ?_, by decide, by decide⟩
  refine ⟨by decide, by decide, by decide, ?_⟩
  intro i hi
  have h2 : i < 3 := by simp only [List.length_cons, List.length_nil] at hi; omega
  interval_cases i <;> decide

/-! ## Claim C10: non-integer, non-slice indexes return None -/

/-- C10: Dataset.__getitem__ has no branch for index kinds other than
integers and slices, so it falls through and returns Python None (here
`.ok none`) without raising. -/
theorem claim_C10_getitem_other_none (offsets : List Int) :
    dsGetitem offsets .otherIdx = .ok none := rfl

/-! ## Claim C3: integer indexing resolves to the owning partition -/

/-- C3: for valid offsets, an integer index in [-numentries, numentries) is
normalized by adding numentries when negative, resolved to the rightmost
partition p with offsets[p] <= n (and then offsets[p] <= n < offsets[p+1]),
with local index n - offsets[p] handed to that partition's proxy; every
integer outside that range raises IndexError. -/
theorem claim_C3_getitem_int (offsets : List Int) (i : Int)
    (hv : validOffsetsB offsets = true) :
    ((-(dsNumentries offsets) ≤ i ∧ i < dsNumentries offsets) →
      ∃ p : Nat,
        dsGetitem offsets (.intIdx i) =
          .ok (some (.entry p (normIdx offsets i - offsets.getD p 0))) ∧
        p + 1 < offsets.length ∧
        offsets.getD p 0 ≤ normIdx offsets i ∧
        normIdx offsets i < offsets.getD (p + 1) 0 ∧
        (∀ q : Nat, q < offsets.length → offsets.getD q 0 ≤ normIdx offsets i → q ≤ p)) ∧
    ((i < -(dsNumentries offsets) ∨ dsNumentries offsets ≤ i) →
      dsGetitem offsets (.intIdx i) = .error .indexError) := by
  obtain ⟨hnn, hlen, hhead, hmono⟩ := validOffsets_facts hv
  have hne0 := dsNumentries_nonneg hv
  have hnonnil : offsets ≠ [] := by intro he; rw [he] at hlen; simp at hlen
  have hlast : dsNumentries offsets = offsets.getD (offsets.length - 1) 0 := by
    rw [dsNumentries, getLastD_eq_getD hnonnil 0]
  constructor
  · rintro ⟨h1, h2⟩
    have hn0 : 0 ≤ normIdx offsets i := by
      unfold normIdx; split <;> omega
    have hnlt : normIdx offsets i < dsNumentries offsets := by
      unfold normIdx; split <;> omega
    have hchar := searchsortedRight_char hmono (normIdx offsets i)
    have hk1 : 1 ≤ searchsortedRight offsets (normIdx offsets i) := by
      have := (hchar 0 (by omega)).mpr (by rw [hhead]; exact hn0)
      omega
    have hklt : searchsortedRight offsets (normIdx offsets i) ≤ offsets.length - 1 := by
      by_contra hc
      push_neg at hc
      have := (hchar (offsets.length - 1) (by omega)).mp (by omega)
      omega
    refine ⟨searchsortedRight offsets (normIdx offsets i) - 1, ?_, by omega, ?_, ?_, ?_⟩
    · have hget : dsGetInt offsets i =
          .ok (searchsortedRight offsets (normIdx offsets i) - 1,
            normIdx offsets i -
              offsets.getD (searchsortedRight offsets (normIdx offsets i) - 1) 0) := by
        unfold dsGetInt
        rw [if_neg (not_not_intro ⟨hn0, hnlt⟩)]
      simp only [dsGetitem, hget]
      rfl
    · exact (hchar (searchsortedRight offsets (normIdx offsets i) - 1) (by omega)).mp (by omega)
    · have hkk : searchsortedRight offsets (normIdx offsets i) - 1 + 1 =
        searchsortedRight offsets (normIdx offsets i) := by omega
      rw [hkk]
      by_contra hc
      push_neg at hc
      have := (hchar (searchsortedRight offsets (normIdx offsets i)) (by omega)).mpr hc
      omega
    · intro q hq hle
      have := (hchar q hq).mpr hle
      omega
  · intro hout
    have hbad : ¬ (0 ≤ normIdx offsets i ∧ normIdx offsets i < dsNumentries offsets) := by
      unfold normIdx; split <;> omega
    have hget : dsGetInt offsets i = .error .indexError := by
      unfold dsGetInt
      rw [if_pos hbad]
    simp only [dsGetitem, hget]
    rfl

/-- Witness for C3 at the spec's example: offsets [0,3,7,10] and index 5
resolve to partition 1, local index 2. -/
theorem claim_C3_witness :
    dsGetitem [(0 : Int), 3, 7, 10] (.intIdx 5) = .ok (some (.entry 1 2)) := by
  have h := (claim_C3_getitem_int [(0 : Int), 3, 7, 10] 5 (by decide)).1
    (by constructor <;> decide)
  obtain ⟨p, hp, hlt, hlo, hhi, hmax⟩ := h
  have hub : p ≤ 2 := by
    simp only [List.length_cons, List.length_nil] at hlt
    omega
  have hge : 1 ≤ p := hmax 1 (by decide) (by decide)
  interval_cases p
  · rw [hp]
    rfl
  · exfalso
    revert hlo
    decide

/-! ## Claim C4: slice indexing helper lemmas -/

theorem sliceClamp_bounds {v : Option Int} {dflt lowerB upperB n : Int}
    (hd : lowerB ≤ dflt ∧ dflt ≤ upperB) (hlb : lowerB ≤ 0) (hub : n - 1 ≤ upperB)
    (hb : lowerB ≤ upperB) :
    lowerB ≤ sliceClamp v dflt lowerB upperB n ∧ sliceClamp v dflt lowerB upperB n ≤ upperB := by
  cases v with
  | none => exact hd
  | some s =>
    simp only [sliceClamp]
    by_cases hs : s < 0
    · rw [if_pos hs]
      exact ⟨le_max_right _ _, max_le (by omega) hb⟩
    · rw [if_neg hs]
      push_neg at hs
      exact ⟨le_min (by omega) hb, min_le_right _ _⟩

theorem slice2sss_bounds {lower upper step : Option Int} {n s e st : Int}
    (hn : 0 ≤ n) (h : slice2sss lower upper step n = .ok (s, e, st)) :
    st ≠ 0 ∧
      (0 < st → 0 ≤ s ∧ s ≤ n ∧ 0 ≤ e ∧ e ≤ n) ∧
      (st < 0 → -1 ≤ s ∧ s ≤ n - 1 ∧ -1 ≤ e ∧ e ≤ n - 1) := by
  have h0 : step.getD 1 ≠ 0 := by
    intro hz
    unfold slice2sss at h
    rw [if_pos hz] at h
    exact absurd h (by simp)
  unfold slice2sss at h
  rw [if_neg h0] at h
  by_cases hpos : 0 < step.getD 1
  · rw [if_pos hpos] at h
    simp only [Except.ok.injEq, Prod.mk.injEq] at h
    obtain ⟨hs, he, hst⟩ := h
    subst hs he hst
    have hb1 := @sliceClamp_bounds lower 0 0 n n (by omega) (by omega) (by omega) (by omega)
    have hb2 := @sliceClamp_bounds upper n 0 n n (by omega) (by omega) (by omega) (by omega)
    exact ⟨h0, fun _ => ⟨hb1.1, hb1.2, hb2.1, hb2.2⟩, fun hc => absurd hc (by omega)⟩
  · rw [if_neg hpos] at h
    simp only [Except.ok.injEq, Prod.mk.injEq] at h
    obtain ⟨hs, he, hst⟩ := h
    subst hs he hst
    have hb1 := @sliceClamp_bounds lower (n - 1) (-1) (n - 1) n
      (by omega) (by omega) (by omega) (by omega)
    have hb2 := @sliceClamp_bounds upper (-1) (-1) (n - 1) n
      (by omega) (by omega) (by omega) (by omega)
    exact ⟨h0, fun hc => absurd hc (by omega), fun _ => ⟨hb1.1, hb1.2, hb2.1, hb2.2⟩⟩

/-- The ceiling of a natural division, the spec's ceil(|stop-start|/|step|). -/
def ceilDivNat (a b : Nat) : Nat := (a + b - 1) / b

/-- The code's `d + (1 if m != 0 else 0)` for `d, m = divmod(a, b)` is the
ceiling of a / b. -/
theorem divmod_ceil (a b : Nat) (hb : 0 < b) :
    a / b + (if a % b ≠ 0 then 1 else 0) = ceilDivNat a b := by
  unfold ceilDivNat
  have hdm := Nat.div_add_mod a b
  by_cases hm : a % b = 0
  · have hdm2 : b * (a / b) = a := by rw [hm, Nat.add_zero] at hdm; exact hdm
    have he : a + b - 1 = b * (a / b) + (b - 1) := by rw [hdm2]; omega
    have hq : (a + b - 1) / b = a / b := by
      rw [he, Nat.mul_add_div hb, Nat.div_eq_of_lt (show b - 1 < b by omega), Nat.add_zero]
    rw [if_neg (by simpa using hm), hq, Nat.add_zero]
  · have hrb : a % b < b := Nat.mod_lt a hb
    have he : a + b - 1 = b * (a / b + 1) + (a % b - 1) := by
      rw [Nat.mul_add, Nat.mul_one]
      obtain ⟨t, ht⟩ : ∃ t, b * (a / b) = t := ⟨_, rfl⟩
      rw [ht] at hdm ⊢
      omega
    have hq : (a + b - 1) / b = a / b + 1 := by
      rw [he, Nat.mul_add_div hb,
        Nat.div_eq_of_lt (show a % b - 1 < b by omega), Nat.add_zero]
    rw [if_pos (by simpa using hm), hq]

theorem natAbs_sub_symm (a b : Int) : (a - b).natAbs = (b - a).natAbs := by
  rw [show a - b = -(b - a) by ring, Int.natAbs_neg]

theorem getD_nonneg {offsets : List Int} (hnn : ∀ x ∈ offsets, 0 ≤ x) (p : Nat) :
    0 ≤ offsets.getD p 0 := by
  by_cases hp : p < offsets.length
  · rw [List.getD_eq_getElem _ _ hp]
    exact hnn _ (List.getElem_mem hp)
  · rw [List.getD_eq_default _ _ (by omega)]

/-- The partition id the slice branch picks for a start inside [0, numentries):
the rightmost partition whose offset is at most start, with the clamps
inactive. -/
theorem slicePid_char {offsets : List Int} (hv : validOffsetsB offsets = true)
    {start : Int} (h0 : 0 ≤ start) (hlt : start < dsNumentries offsets) :
    slicePid offsets start + 1 < offsets.length ∧
    offsets.getD (slicePid offsets start) 0 ≤ start ∧
    start < offsets.getD (slicePid offsets start + 1) 0 ∧
    (∀ q : Nat, q < offsets.length → offsets.getD q 0 ≤ start → q ≤ slicePid offsets start) := by
  obtain ⟨hnn, hlen, hhead, hmono⟩ := validOffsets_facts hv
  have hnonnil : offsets ≠ [] := by intro he; rw [he] at hlen; simp at hlen
  have hlast : dsNumentries offsets = offsets.getD (offsets.length - 1) 0 := by
    rw [dsNumentries, getLastD_eq_getD hnonnil 0]
  have hchar := searchsortedRight_char hmono start
  have hk1 : 1 ≤ searchsortedRight offsets start := by
    have := (hchar 0 (by omega)).mpr (by rw [hhead]; exact h0)
    omega
  have hklt : searchsortedRight offsets start ≤ offsets.length - 1 := by
    by_contra hc
    push_neg at hc
    have := (hchar (offsets.length - 1) (by omega)).mp (by omega)
    omega
  have hpid : slicePid offsets start = searchsortedRight offsets start - 1 := by
    unfold slicePid dsNumpartitions
    rw [min_eq_left (by omega), max_eq_right (by omega)]
    omega
  rw [hpid]
  refine ⟨by omega, ?_, ?_, ?_⟩
  · exact (hchar (searchsortedRight offsets start - 1) (by omega)).mp (by omega)
  · have hkk : searchsortedRight offsets start - 1 + 1 = searchsortedRight offsets start := by
      omega
    rw [hkk]
    by_contra hc
    push_neg at hc
    have := (hchar (searchsortedRight offsets start) (by omega)).mpr hc
    omega
  · intro q hq hle
    have := (hchar q hq).mpr hle
    omega

theorem slicePid_neg_one {offsets : List Int} (hv : validOffsetsB offsets = true) :
    slicePid offsets (-1) = 0 := by
  obtain ⟨hnn, hlen, hhead, hmono⟩ := validOffsets_facts hv
  have hk : searchsortedRight offsets (-1) = 0 := by
    rw [searchsortedRight, List.countP_eq_zero]
    intro x hx
    have := hnn x hx
    simp only [decide_eq_true_eq]
    omega
  unfold slicePid dsNumpartitions
  rw [hk]
  rw [min_eq_left (by omega), max_eq_left (by omega)]
  rfl

theorem searchsortedRight_last {offsets : List Int} (hv : validOffsetsB offsets = true) :
    searchsortedRight offsets (dsNumentries offsets) = offsets.length := by
  obtain ⟨hnn, hlen, hhead, hmono⟩ := validOffsets_facts hv
  have hnonnil : offsets ≠ [] := by intro he; rw [he] at hlen; simp at hlen
  have hlast : dsNumentries offsets = offsets.getD (offsets.length - 1) 0 := by
    rw [dsNumentries, getLastD_eq_getD hnonnil 0]
  have hchar := searchsortedRight_char hmono (dsNumentries offsets)
  have hle : searchsortedRight offsets (dsNumentries offsets) ≤ offsets.length :=
    List.countP_le_length _
  have hge : offsets.length - 1 < searchsortedRight offsets (dsNumentries offsets) := by
    apply (hchar (offsets.length - 1) (by omega)).mpr
    omega
  omega

theorem slicePid_at_end {offsets : List Int} (hv : validOffsetsB offsets = true) :
    slicePid offsets (dsNumentries offsets) = offsets.length - 2 := by
  have hk := searchsortedRight_last hv
  obtain ⟨_, hlen, _, _⟩ := validOffsets_facts hv
  unfold slicePid dsNumpartitions
  rw [hk]
  rw [min_eq_right (by omega), max_eq_right (by omega)]
  omega

/-- When the resolved start and stop coincide, the slice branch never raises:
it returns the windowed view at the clamped partition with length 0. -/
theorem dsSliceCore_empty {offsets : List Int} (hv : validOffsetsB offsets = true)
    {start st : Int} (h0 : -1 ≤ start) (h1 : start ≤ dsNumentries offsets) :
    slicePid offsets start < dsNumpartitions offsets ∧
    dsSliceCore offsets start start st =
      .ok ⟨slicePid offsets start, start - offsets.getD (slicePid offsets start) 0, st, 0⟩ := by
  obtain ⟨hnn, hlen, hhead, hmono⟩ := validOffsets_facts hv
  have hnonnil : offsets ≠ [] := by intro he; rw [he] at hlen; simp at hlen
  have hlast : dsNumentries offsets = offsets.getD (offsets.length - 1) 0 := by
    rw [dsNumentries, getLastD_eq_getD hnonnil 0]
  have hkey : slicePid offsets start < dsNumpartitions offsets ∧
      ¬ (start - offsets.getD (slicePid offsets start) 0 < -1 ∨
        offsets.getD (slicePid offsets start + 1) 0 - offsets.getD (slicePid offsets start) 0 <
          start - offsets.getD (slicePid offsets start) 0) := by
    rcases eq_or_lt_of_le h0 with heq | hgt
    · -- start = -1
      rw [← heq, slicePid_neg_one hv]
      have h01 : offsets.getD 0 0 ≤ offsets.getD 1 0 := mono_getD hmono 0 1 (by omega) (by omega)
      have h01b : offsets.getD (0 + 1) 0 = offsets.getD 1 0 := rfl
      constructor
      · unfold dsNumpartitions; omega
      · omega
    · rcases eq_or_lt_of_le h1 with hend | hmid
      · -- start = numentries
        rw [hend, slicePid_at_end hv]
        have hgd : offsets.getD (offsets.length - 2) 0 ≤ offsets.getD (offsets.length - 1) 0 :=
          mono_getD hmono (offsets.length - 2) (offsets.length - 1) (by omega) (by omega)
        have hstep : offsets.length - 2 + 1 = offsets.length - 1 := by omega
        constructor
        · unfold dsNumpartitions; omega
        · rw [hstep]
          omega
      · -- 0 <= start < numentries
        have hs0 : 0 ≤ start := by omega
        obtain ⟨hp1len, hple, hplt, _⟩ := slicePid_char hv hs0 hmid
        constructor
        · unfold dsNumpartitions; omega
        · omega
  refine ⟨hkey.1, ?_⟩
  unfold dsSliceCore
  rw [if_neg hkey.2]
  have hz : ((start - offsets.getD (slicePid offsets start) 0) -
      (start - offsets.getD (slicePid offsets start) 0)).natAbs = 0 := by omega
  rw [hz]
  norm_num

/-- The integer positions a resolved slice covers: the half-open interval from
start towards stop, inclusive of the start endpoint's side and exclusive of
the stop endpoint. -/
def inJ (start stop x : Int) : Prop :=
  if start ≤ stop then start ≤ x ∧ x < stop else stop < x ∧ x ≤ start

/-- Global position x belongs to partition p. -/
def inPart (offsets : List Int) (p : Nat) (x : Int) : Prop :=
  offsets.getD p 0 ≤ x ∧ x < offsets.getD (p + 1) 0

/-! ## Claim C4: slice indexing -/

/-- C4: after standard slice resolution, a resolved range lying within a
single partition returns that partition's proxy with _whence the
partition-local start, _stride the step, and _length ceil(|stop-start|/|step|),
while a resolved range meeting two distinct partitions raises IndexError. -/
theorem claim_C4_getitem_slice (offsets : List Int) (lower upper step : Option Int)
    (start stop st : Int) (hv : validOffsetsB offsets = true)
    (hres : slice2sss lower upper step (dsNumentries offsets) = .ok (start, stop, st)) :
    ((∃ p : Nat, p < dsNumpartitions offsets ∧
        ∀ x : Int, inJ start stop x → inPart offsets p x) →
      ∃ p : Nat, p < dsNumpartitions offsets ∧
        (∀ x : Int, inJ start stop x → inPart offsets p x) ∧
        dsGetitem offsets (.sliceIdx lower upper step) =
          .ok (some (.view ⟨p, start - offsets.getD p 0, st,
            (ceilDivNat (stop - start).natAbs st.natAbs : Int)⟩))) ∧
    ((∃ p q : Nat, p < q ∧ q < dsNumpartitions offsets ∧
        (∃ x : Int, inJ start stop x ∧ inPart offsets p x) ∧
        (∃ x : Int, inJ start stop x ∧ inPart offsets q x)) →
      dsGetitem offsets (.sliceIdx lower upper step) = .error .indexError) := by
  obtain ⟨hnn, hlen, hhead, hmono⟩ := validOffsets_facts hv
  have hne0 := dsNumentries_nonneg hv
  have hnonnil : offsets ≠ [] := by intro he; rw [he] at hlen; simp at hlen
  have hlast : dsNumentries offsets = offsets.getD (offsets.length - 1) 0 := by
    rw [dsNumentries, getLastD_eq_getD hnonnil 0]
  obtain ⟨hst0, hbp, hbn⟩ := slice2sss_bounds hne0 hres
  have hstb : -1 ≤ start ∧ start ≤ dsNumentries offsets ∧
      -1 ≤ stop ∧ stop ≤ dsNumentries offsets := by
    rcases lt_trichotomy st 0 with h | h | h
    · have := hbn h; omega
    · exact absurd h hst0
    · have := hbp h; omega
  have hgi : dsGetitem offsets (.sliceIdx lower upper step) =
      (dsSliceCore offsets start stop st).map (fun v => some (.view v)) := by
    have hds : dsGetSlice offsets lower upper step = dsSliceCore offsets start stop st := by
      unfold dsGetSlice; rw [hres]
    simp only [dsGetitem, hds]
  have habs : 0 < st.natAbs := Int.natAbs_pos.mpr hst0
  have hcast : ∀ a b : Nat, 0 < b →
      ((a / b : Nat) : Int) + (if a % b ≠ 0 then (1 : Int) else 0) =
        ((ceilDivNat a b : Nat) : Int) := by
    intro a b hb
    rw [← divmod_ceil a b hb]
    push_cast
    split <;> simp
  constructor
  · rintro ⟨p0, hp0np, hcont⟩
    by_cases hJe : start = stop
    · subst hJe
      obtain ⟨hplt, hcore⟩ := @dsSliceCore_empty offsets hv start st hstb.1 hstb.2.1
      refine ⟨slicePid offsets start, hplt, ?_, ?_⟩
      · intro x hx
        exfalso
        unfold inJ at hx
        rw [if_pos (le_refl start)] at hx
        omega
      · rw [hgi, hcore]
        have hcz : (ceilDivNat (start - start).natAbs st.natAbs : Int) = 0 := by
          rw [show start - start = 0 by ring]
          unfold ceilDivNat
          rw [Int.natAbs_zero, Nat.zero_add, Nat.div_eq_of_lt (by omega)]
          rfl
        rw [hcz]
        rfl
    · have hstartJ : inJ start stop start := by
        unfold inJ
        split
        · exact ⟨le_refl _, by omega⟩
        · rename_i hc
          push_neg at hc
          exact ⟨by omega, le_refl _⟩
      have hsp := hcont start hstartJ
      unfold inPart at hsp
      have hs0 : 0 ≤ start := le_trans (getD_nonneg hnn p0) hsp.1
      have hslt : start < dsNumentries offsets := by
        have hle := mono_getD hmono (p0 + 1) (offsets.length - 1)
          (by unfold dsNumpartitions at hp0np; omega) (by omega)
        omega
      obtain ⟨hp1len, hple, hplt, hpmax⟩ := slicePid_char hv hs0 hslt
      have hpeq : slicePid offsets start = p0 := by
        have h1 : p0 ≤ slicePid offsets start :=
          hpmax p0 (by unfold dsNumpartitions at hp0np; omega) hsp.1
        have h2 : slicePid offsets start ≤ p0 := by
          by_contra hc
          push_neg at hc
          have := mono_getD hmono (p0 + 1) (slicePid offsets start) (by omega)
            (by omega)
          omega
        omega
      have hguard : ¬ (stop - offsets.getD p0 0 < -1 ∨
          offsets.getD (p0 + 1) 0 - offsets.getD p0 0 < stop - offsets.getD p0 0) := by
        rcases lt_or_gt_of_ne hJe with hfw | hbw
        · have hx := hcont (stop - 1) (by unfold inJ; rw [if_pos (by omega)]; omega)
          unfold inPart at hx
          omega
        · have hx := hcont (stop + 1) (by unfold inJ; rw [if_neg (by omega)]; omega)
          unfold inPart at hx
          rw [hpeq] at hplt
          omega
      refine ⟨p0, hp0np, hcont, ?_⟩
      rw [hgi]
      unfold dsSliceCore
      rw [hpeq, if_neg hguard]
      have harg : ((start - offsets.getD p0 0) - (stop - offsets.getD p0 0)).natAbs =
          (stop - start).natAbs := by
        rw [show (start - offsets.getD p0 0) - (stop - offsets.getD p0 0) = start - stop by ring]
        exact natAbs_sub_symm start stop
      rw [harg, hcast _ _ habs]
      rfl
  · rintro ⟨p, q, hpq, hqnp, ⟨x1, hx1J, hx1P⟩, ⟨x2, hx2J, hx2P⟩⟩
    unfold inPart at hx1P hx2P
    have hqlen : q + 1 ≤ offsets.length - 1 := by unfold dsNumpartitions at hqnp; omega
    have hJne : start ≠ stop := by
      intro he
      rw [he] at hx1J
      unfold inJ at hx1J
      rw [if_pos (le_refl _)] at hx1J
      omega
    rw [hgi]
    unfold dsSliceCore
    rcases lt_or_gt_of_ne hJne with hfw | hbw
    · -- forward: start < stop; x in J means start <= x < stop
      have hx1Jd : start ≤ x1 ∧ x1 < stop := by
        unfold inJ at hx1J; rw [if_pos (by omega)] at hx1J; exact hx1J
      have hx2Jd : start ≤ x2 ∧ x2 < stop := by
        unfold inJ at hx2J; rw [if_pos (by omega)] at hx2J; exact hx2J
      have hguard : stop - offsets.getD (slicePid offsets start) 0 < -1 ∨
          offsets.getD (slicePid offsets start + 1) 0 -
            offsets.getD (slicePid offsets start) 0 <
            stop - offsets.getD (slicePid offsets start) 0 := by
        rcases eq_or_lt_of_le hstb.1 with hneg | hs0
        · -- start = -1: the clamped partition is 0
          rw [← hneg, slicePid_neg_one hv]
          have hq1 : offsets.getD 1 0 ≤ offsets.getD q 0 :=
            mono_getD hmono 1 q (by omega) (by omega)
          have h01b : offsets.getD (0 + 1) 0 = offsets.getD 1 0 := rfl
          right
          omega
        · -- start >= 0
          have hslt : start < dsNumentries offsets := by
            have := mono_getD hmono (q + 1) (offsets.length - 1) (by omega) (by omega)
            omega
          obtain ⟨hp1len, hple, hplt, hpmax⟩ := slicePid_char hv (by omega) hslt
          -- every partition meeting J is at least slicePid
          have hge : slicePid offsets start ≤ p := by
            by_contra hc
            push_neg at hc
            have := mono_getD hmono (p + 1) (slicePid offsets start) (by omega) (by omega)
            omega
          have hq1 : offsets.getD (slicePid offsets start + 1) 0 ≤ offsets.getD q 0 :=
            mono_getD hmono (slicePid offsets start + 1) q (by omega) (by omega)
          right
          omega
      rw [if_pos hguard]
      rfl
    · -- backward: stop < start; x in J means stop < x <= start
      have hx1Jd : stop < x1 ∧ x1 ≤ start := by
        unfold inJ at hx1J; rw [if_neg (by omega)] at hx1J; exact hx1J
      have hx2Jd : stop < x2 ∧ x2 ≤ start := by
        unfold inJ at hx2J; rw [if_neg (by omega)] at hx2J; exact hx2J
      have hs0 : 0 ≤ start := by
        have := getD_nonneg hnn p
        omega
      have hguard : stop - offsets.getD (slicePid offsets start) 0 < -1 ∨
          offsets.getD (slicePid offsets start + 1) 0 -
            offsets.getD (slicePid offsets start) 0 <
            stop - offsets.getD (slicePid offsets start) 0 := by
        rcases eq_or_lt_of_le hstb.2.1 with hend | hslt
        · -- start = numentries: the clamped partition is length - 2
          rw [hend, slicePid_at_end hv]
          have hq1 : offsets.getD (p + 1) 0 ≤ offsets.getD (offsets.length - 2) 0 :=
            mono_getD hmono (p + 1) (offsets.length - 2) (by omega) (by omega)
          left
          omega
        · obtain ⟨hp1len, hple, hplt, hpmax⟩ := slicePid_char hv hs0 hslt
          -- every partition meeting J is at most slicePid
          have hle2 : q ≤ slicePid offsets start := by
            by_contra hc
            push_neg at hc
            have := mono_getD hmono (slicePid offsets start + 1) q (by omega) (by omega)
            omega
          have hq1 : offsets.getD (p + 1) 0 ≤ offsets.getD (slicePid offsets start) 0 :=
            mono_getD hmono (p + 1) (slicePid offsets start) (by omega) (by omega)
          left
          omega
      rw [if_pos hguard]
      rfl

/-- Witness for C4 at the spec's own example: offsets [0,3,7] and the slice
[2:5], which meets partitions 0 and 1, raises IndexError. -/
theorem claim_C4_witness :
    dsGetitem [(0 : Int), 3, 7] (.sliceIdx (some 2) (some 5) none) = .error .indexError := by
  apply (claim_C4_getitem_slice [(0 : Int), 3, 7] (some 2) (some 5) none 2 5 1
    (by decide) rfl).2
  refine ⟨0, 1, by omega, by decide, ⟨2, ?_, ?_⟩, ⟨3, ?_, ?_⟩⟩
  · unfold inJ
    rw [if_pos (by omega)]
    omega
  · exact ⟨by decide, by decide⟩
  · unfold inJ
    rw [if_pos (by omega)]
    omega
  · exact ⟨by decide, by decide⟩

/-! ## Schema model (src/oamap/schema.py): the PLURTP tree -/

/-- A non-cyclic schema tree.  Constructor fields mirror the Python
constructor arguments; the optional name (used only to pick generated proxy
class names, never an array name) and the Primitive datatype validation are
omitted as they play no part in array-name assignment. -/
inductive SchemaT
  | prim (dtype : String) (dims : List Nat) (nullable : Bool) (data mask : Option String)
  | list (content : SchemaT) (nullable : Bool) (starts stops mask : Option String)
  | union (possibilities : List SchemaT) (nullable : Bool) (tags offsets mask : Option String)
  | record (fields : List (String × SchemaT)) (nullable : Bool) (mask : Option String)
  | tup (items : List SchemaT) (nullable : Bool) (mask : Option String)
  | pointer (target : SchemaT) (nullable : Bool) (positions mask : Option String)

/-- Insertion of one field into a key-sorted field list. -/
def fieldInsert (x : String × SchemaT) : List (String × SchemaT) → List (String × SchemaT)
  | [] => [x]
  | y :: t => if x.1 ≤ y.1 then x :: y :: t else y :: fieldInsert x t

/-- Key-sorted field list: `fields = tuple(sorted(self._fields))` in
Record.__call__ (src/oamap/schema.py line 492); Python dict keys are unique,
so stability questions do not arise. -/
def sortFields : List (String × SchemaT) → List (String × SchemaT)
  | [] => []
  | x :: t => fieldInsert x (sortFields t)

mutual

/-- The array names each schema node owns once Schema.__call__ derives the
concrete type, tagged with the path of the owning node (so distinct nodes can
be told apart).  Faithful to src/oamap/schema.py:

* Primitive (lines 189-204): data defaults to the bare prefix, the mask (when
  nullable) to prefix+delimiter+"M".
* List (lines 281-306): starts/stops default to prefix+delimiter+"B"/"E"; the
  content is derived with `self._content(prefix + delimiter + "C")`, a single
  positional argument, so the child uses the DEFAULT delimiter "-".
* Union (lines 395-415): tags/offsets default to prefix+delimiter+"T"/"O";
  every possibility is derived with the same `prefix + delimiter + "U"`.
* Record (lines 488-505): every field is derived with the same
  `prefix + delimiter + "F"` (the field name is not appended).
* Tuple (lines 585-602): every item is derived with the same
  `prefix + delimiter + "I"`.
* Pointer (lines 666-676): positions defaults to prefix+delimiter+"P"; the
  non-nullable branch derives the target with `(prefix + delimiter + "",
  delimiter)`; the nullable branch is the bare name `HERE`, a NameError.

The fuel argument only bounds the recursion depth (none = fuel exhausted). -/
def schemaNames : Nat → SchemaT → String → String → List Nat →
    Option (Except PyErr (List (List Nat × String)))
  | 0, _, _, _, _ => none
  | fuel + 1, s, pre, delim, path =>
    match s with
    | .prim _ _ nullable data mask =>
      some (.ok ((path, data.getD pre) ::
        (if nullable then [(path, mask.getD (pre ++ delim ++ "M"))] else [])))
    | .list content nullable starts stops mask =>
      match schemaNames fuel content (pre ++ delim ++ "C") "-" (path ++ [0]) with
      | none => none
      | some (.error e) => some (.error e)
      | some (.ok cn) =>
        some (.ok ([(path, starts.getD (pre ++ delim ++ "B")),
            (path, stops.getD (pre ++ delim ++ "E"))] ++ cn ++
          (if nullable then [(path, mask.getD (pre ++ delim ++ "M"))] else [])))
    | .union possibilities nullable tags offsets mask =>
      match childNames fuel possibilities 0 (pre ++ delim ++ "U") "-" path with
      | none => none
      | some (.error e) => some (.error e)
      | some (.ok cn) =>
        some (.ok ([(path, tags.getD (pre ++ delim ++ "T")),
            (path, offsets.getD (pre ++ delim ++ "O"))] ++ cn ++
          (if nullable then [(path, mask.getD (pre ++ delim ++ "M"))] else [])))
    | .record fields nullable mask =>
      match childNames fuel ((sortFields fields).map Prod.snd) 0 (pre ++ delim ++ "F") "-" path with
      | none => none
      | some (.error e) => some (.error e)
      | some (.ok cn) =>
        some (.ok (cn ++ (if nullable then [(path, mask.getD (pre ++ delim ++ "M"))] else [])))
    | .tup items nullable mask =>
      match childNames fuel items 0 (pre ++ delim ++ "I") "-" path with
      | none => none
      | some (.error e) => some (.error e)
      | some (.ok cn) =>
        some (.ok (cn ++ (if nullable then [(path, mask.getD (pre ++ delim ++ "M"))] else [])))
    | .pointer target nullable positions mask =>
      if nullable then some (.error .nameError)
      else
        match schemaNames fuel target (pre ++ delim) delim (path ++ [0]) with
        | none => none
        | some (.error e) => some (.error e)
        | some (.ok cn) =>
          some (.ok ((path, positions.getD (pre ++ delim ++ "P")) :: cn))

/-- Derives the names of a list of child schemas in order, numbering paths. -/
def childNames : Nat → List SchemaT → Nat → String → String → List Nat →
    Option (Except PyErr (List (List Nat × String)))
  | 0, _, _, _, _, _ => none
  | _ + 1, [], _, _, _, _ => some (.ok [])
  | fuel + 1, c :: rest, i, pre, delim, path =>
    match schemaNames fuel c pre delim (path ++ [i]) with
    | none => none
    | some (.error e) => some (.error e)
    | some (.ok a) =>
      match childNames fuel rest (i + 1) pre delim path with
      | none => none
      | some (.error e) => some (.error e)
      | some (.ok b) => some (.ok (a ++ b))

end

/-! ## Claim C1: the derived array names of distinct record fields collide -/

/-- C1 (evaluation at the failing input): for
Record(fields=dict(a=Primitive(f8), b=Primitive(f8))) under the default
prefix "object" and delimiter "-", both field Primitives derive the SAME data
array name "object-F" at two distinct node paths, because Record.__call__
hands every field the identical prefix `prefix + delimiter + "F"`. -/
theorem claim_C1_record_field_name_collision :
    schemaNames 4
        (.record [("a", .prim "f8" [] false none none),
          ("b", .prim "f8" [] false none none)] false none) "object" "-" [] =
      some (.ok [([0], "object-F"), ([1], "object-F")]) ∧
    ([0] : List Nat) ≠ [1] := by
  constructor
  · have hs : sortFields [("a", SchemaT.prim "f8" [] false none none),
        ("b", SchemaT.prim "f8" [] false none none)] =
        [("a", SchemaT.prim "f8" [] false none none),
          ("b", SchemaT.prim "f8" [] false none none)] := by
      simp [sortFields, fieldInsert]
      decide
    simp only [schemaNames, childNames, hs, List.map]
    rfl
  · decide

/-! ## Schema graphs and __repr__ (src/oamap/schema.py) -/

/-- A schema node in an arena of nodes: children are arena indexes, so a node
can reach itself (the cycles the mutating setters can build).  Python object
identity (`id(self)`) becomes the arena index. -/
inductive NodeData
  | prim (dtype : String) (dims : List Nat) (nullable : Bool) (data mask : Option String)
  | list (content : Nat) (nullable : Bool) (starts stops mask : Option String)
  | union (possibilities : List Nat) (nullable : Bool) (tags offsets mask : Option String)
  | record (fields : List (String × Nat)) (nullable : Bool) (mask : Option String)
  | tup (items : List Nat) (nullable : Bool) (mask : Option String)
  | pointer (target : Nat) (nullable : Bool) (positions mask : Option String)
  deriving Repr, DecidableEq

mutual

/-- Schema._collect (src/oamap/schema.py; per-variant at lines 183-187,
274-279, 387-393, 480-486, 577-583, 659-664): a first visit adds the node's
identity to the collection and recurses into the children; a revisit appends
the node to the labels list.  Fuel models the Python call stack; none means
the recursion has not finished within the given depth. -/
def collect : Nat → List NodeData → Nat → List Nat → List Nat →
    Option (List Nat × List Nat)
  | 0, _, _, _, _ => none
  | fuel + 1, arena, id, collection, labels =>
    if id ∈ collection then some (collection, labels ++ [id])
    else
      match arena.get? id with
      | none => some (collection ++ [id], labels)
      | some nd =>
        match nd with
        | .prim _ _ _ _ _ => some (collection ++ [id], labels)
        | .list c _ _ _ _ => collect fuel arena c (collection ++ [id]) labels
        | .union ps _ _ _ _ => collectList fuel arena ps (collection ++ [id]) labels
        | .record fs _ _ => collectList fuel arena (fs.map Prod.snd) (collection ++ [id]) labels
        | .tup its _ _ => collectList fuel arena its (collection ++ [id]) labels
        | .pointer t _ _ _ => collect fuel arena t (collection ++ [id]) labels

def collectList : Nat → List NodeData → List Nat → List Nat → List Nat →
    Option (List Nat × List Nat)
  | 0, _, _, _, _ => none
  | _ + 1, _, [], collection, labels => some (collection, labels)
  | fuel + 1, arena, i :: rest, collection, labels =>
    match collect fuel arena i collection labels with
    | none => none
    | some (c2, l2) => collectList fuel arena rest c2 l2

end

/-- Schema._label (src/oamap/schema.py lines 109-113): the first index of the
node in the labels list, printed as a numbered back-reference. -/
def labelOf (labels : List Nat) (id : Nat) : Option String :=
  (labels.findIdx? (fun x => x == id)).map (fun i => "#" ++ toString i)

/-- A single-quote character, written with an escape. -/
def sglq : String := "\x27"

/-- Python repr of a string (single-quoted). -/
def pyStrRepr (s : String) : String := sglq ++ s ++ sglq

/-- keyword=repr(value) argument strings for the optional array names. -/
def kwArgs : List (String × Option String) → List String
  | [] => []
  | (_, none) :: rest => kwArgs rest
  | (k, some v) :: rest => (k ++ "=" ++ pyStrRepr v) :: kwArgs rest

def nullableArg (nullable : Bool) : List String :=
  if nullable then ["nullable=True"] else []

def joinArgs (args : List String) : String := String.intercalate ", " args

/-- label: Kind(body) when a label exists, Kind(body) otherwise (the form
used by Primitive, List, Union and Record). -/
def withColonLabel (label : Option String) (kind body : String) : String :=
  match label with
  | none => kind ++ "(" ++ body ++ ")"
  | some l => l ++ ": " ++ kind ++ "(" ++ body ++ ")"

/-- Tuple.__repr__ and Pointer.__repr__ concatenate the label directly,
without the colon-space separator (src/oamap/schema.py lines 575, 654). -/
def withBareLabel (label : Option String) (kind body : String) : String :=
  match label with
  | none => kind ++ "(" ++ body ++ ")"
  | some l => l ++ kind ++ "(" ++ body ++ ")"

/-- Outcome of one __repr__ call: fuel ran out, an exception escaped, the
Python-None fall-through of Tuple.__repr__, or a string; the latter two carry
the mutated shown set. -/
inductive RR
  | outOfFuel
  | err
  | pynone (shown : List Nat)
  | strRes (s : String) (shown : List Nat)
  deriving Repr, DecidableEq

/-- Outcome of a sequence of child __repr__ calls threaded through one shown
set (Union possibilities, Tuple items). -/
inductive RL
  | outOfFuel
  | err
  | strsRes (ss : List String) (shown : List Nat)
  deriving Repr, DecidableEq

/-- Outcome of Record's field reprs (each a fresh builtin repr call). -/
inductive RFs
  | outOfFuel
  | err
  | strsRes (ss : List String)
  deriving Repr, DecidableEq

mutual

/-- One Schema.__repr__ call with labels and shown supplied (the recursive
case of src/oamap/schema.py lines 156-181, 247-272, 360-385, 457-478,
557-575, 634-657).  A first visit marks the node shown and prints the
expansion; a revisited labelled node prints only its label, except that
Tuple.__repr__ has no such else-branch and falls off the end, returning
Python None.  Record.__repr__ formats each field with the BUILTIN repr
(`repr(x)`, line 466), which restarts a fresh traversal with new labels and
an empty shown set rather than passing them along. -/
def reprNode : Nat → List NodeData → List Nat → List Nat → Nat → RR
  | 0, _, _, _, _ => .outOfFuel
  | fuel + 1, arena, labels, shown, id =>
    match arena.get? id with
    | none => .err
    | some nd =>
      if labelOf labels id = none ∨ id ∉ shown then
        let shown1 := if id ∈ shown then shown else shown ++ [id]
        match nd with
        | .prim dtype dims nullable data mask =>
          .strRes (withColonLabel (labelOf labels id) "Primitive"
            (joinArgs ([pyStrRepr dtype] ++
              (if dims ≠ [] then ["dims=" ++ toString dims] else []) ++
              nullableArg nullable ++ kwArgs [("data", data), ("mask", mask)]))) shown1
        | .list c nullable starts stops mask =>
          match reprNode fuel arena labels shown1 c with
          | .outOfFuel => .outOfFuel
          | .err => .err
          | .pynone _ => .err
          | .strRes cs shown2 =>
            .strRes (withColonLabel (labelOf labels id) "List"
              (joinArgs ([cs] ++ nullableArg nullable ++
                kwArgs [("starts", starts), ("stops", stops), ("mask", mask)]))) shown2
        | .union ps nullable tags offsets mask =>
          match reprList fuel arena labels shown1 ps with
          | .outOfFuel => .outOfFuel
          | .err => .err
          | .strsRes ss shown2 =>
            .strRes (withColonLabel (labelOf labels id) "Union"
              (joinArgs (["[" ++ String.intercalate ", " ss ++ "]"] ++
                nullableArg nullable ++
                kwArgs [("tags", tags), ("offsets", offsets), ("mask", mask)]))) shown2
        | .record fs nullable mask =>
          match recordFields fuel arena fs with
          | .outOfFuel => .outOfFuel
          | .err => .err
          | .strsRes ss =>
            .strRes (withColonLabel (labelOf labels id) "Record"
              (joinArgs (["\x7b" ++ String.intercalate ", " ss ++ "\x7d"] ++
                nullableArg nullable ++ kwArgs [("mask", mask)]))) shown1
        | .tup its nullable mask =>
          match reprList fuel arena labels shown1 its with
          | .outOfFuel => .outOfFuel
          | .err => .err
          | .strsRes ss shown2 =>
            .strRes (withBareLabel (labelOf labels id) "Tuple"
              (joinArgs (["[" ++ String.intercalate ", " ss ++ "]"] ++
                nullableArg nullable ++ kwArgs [("mask", mask)]))) shown2
        | .pointer t nullable positions mask =>
          match reprNode fuel arena labels shown1 t with
          | .outOfFuel => .outOfFuel
          | .err => .err
          | .pynone _ => .err
          | .strRes ts shown2 =>
            .strRes (withBareLabel (labelOf labels id) "Pointer"
              (joinArgs ([ts] ++ nullableArg nullable ++
                kwArgs [("positions", positions), ("mask", mask)]))) shown2
      else
        match nd with
        | .tup _ _ _ => .pynone shown
        | _ => .strRes ((labelOf labels id).getD "") shown

/-- Child reprs threaded through the same shown set, left to right; a None
child makes the enclosing join raise TypeError. -/
def reprList : Nat → List NodeData → List Nat → List Nat → List Nat → RL
  | 0, _, _, _, _ => .outOfFuel
  | _ + 1, _, _, shown, [] => .strsRes [] shown
  | fuel + 1, arena, labels, shown, i :: rest =>
    match reprNode fuel arena labels shown i with
    | .outOfFuel => .outOfFuel
    | .err => .err
    | .pynone _ => .err
    | .strRes s shown2 =>
      match reprList fuel arena labels shown2 rest with
      | .outOfFuel => .outOfFuel
      | .err => .err
      | .strsRes ss shown3 => .strsRes (s :: ss) shown3

/-- Record field strings: `repr(n) + ": " + repr(x)` where repr(x) is the
BUILTIN repr, hence a fresh full traversal per field (and a TypeError if
that __repr__ returns None). -/
def recordFields : Nat → List NodeData → List (String × Nat) → RFs
  | 0, _, _ => .outOfFuel
  | _ + 1, _, [] => .strsRes []
  | fuel + 1, arena, (n, cid) :: rest =>
    match fullRepr fuel arena cid with
    | .outOfFuel => .outOfFuel
    | .err => .err
    | .pynone _ => .err
    | .strRes s _ =>
      match recordFields fuel arena rest with
      | .outOfFuel => .outOfFuel
      | .err => .err
      | .strsRes ss => .strsRes ((pyStrRepr n ++ ": " ++ s) :: ss)

/-- A full builtin repr call: Schema.__repr__ with labels=None recomputes the
labels via Schema._labels (lines 104-107) and starts with an empty shown
set. -/
def fullRepr : Nat → List NodeData → Nat → RR
  | 0, _, _ => .outOfFuel
  | fuel + 1, arena, id =>
    match collect fuel arena id [] [] with
    | none => .outOfFuel
    | some (_, labels) => reprNode fuel arena labels [] id

end

/-! ## Claim C2: repr of a cyclic Record never terminates -/

/-- The failing input for claim C2: `r = Record({"a": Primitive("f8")});
r["a"] = r` — a record whose single field is the record itself (index 0 in
the arena). -/
def arenaC2 : List NodeData := [.record [("a", 0)] false none]

/-- C2 (evaluation at the failing input): Record.__repr__ renders every field
value with the builtin repr, restarting a fresh traversal instead of passing
the labels/shown memo, so repr of a self-referential Record recurses without
bound: no recursion depth (fuel) suffices for the call to return. -/
theorem claim_C2_record_cycle_repr_diverges :
    ∀ fuel : Nat, fullRepr fuel arenaC2 0 = .outOfFuel := by
  have hget : arenaC2[(0 : Nat)]? = some (.record [("a", 0)] false none) := rfl
  have hlab : labelOf [0] 0 = some ("#" ++ toString 0) := rfl
  intro fuel
  induction fuel using Nat.strong_induction_on with
  | _ n ih =>
    rcases n with _ | (_ | (_ | (_ | m)))
    · simp [fullRepr]
    · simp [fullRepr, collect]
    · simp [fullRepr, collect, collectList, hget]
    · simp [fullRepr, collect, collectList, hget]
    · have hih := ih (m + 1) (by omega)
      have hrf : recordFields (m + 1 + 1) arenaC2 [("a", 0)] = .outOfFuel := by
        simp [recordFields, hih]
      simp [fullRepr, collect, collectList, reprNode, hget, hlab, hrf]

/-! ## Claim C5: Union/Tuple construction and mutation (src/oamap/schema.py) -/

/-- An argument element handed to a schema container: a Schema or anything
else. -/
inductive PyVal
  | schemaVal (s : SchemaT)
  | nonSchema (descr : String)

/-- Union._extend (src/oamap/schema.py lines 327-337).  Its loop header is
`for i, x in enumerate(value)`, but the method's parameter is named
`possibilities`: the name `value` is not bound in the method, in any
enclosing scope, in the module, or in builtins, so evaluating the loop header
raises NameError before any argument is examined (and `except TypeError` does
not catch NameError).  The possibilities setter (line 325) routes every
construction through this method. -/
def Union_extend (possibilities start : List PyVal) : Except PyErr (List PyVal) :=
  .error .nameError

/-- Union.__init__ assigns the possibilities property, which calls
`self._extend(value, [])` (src/oamap/schema.py lines 311-325). -/
def Union_init (possibilities : List PyVal) : Except PyErr (List PyVal) :=
  Union_extend possibilities []

/-- Union.extend (line 349-350) also delegates to Union._extend. -/
def Union_extend_method (possibilities start : List PyVal) : Except PyErr (List PyVal) :=
  Union_extend possibilities start

/-- Union.append (src/oamap/schema.py lines 339-342) validates its argument
correctly against Schema and appends it; kept for contrast with _extend. -/
def Union_append (possibilities : List PyVal) (v : PyVal) : Except PyErr (List PyVal) :=
  match v with
  | .schemaVal _ => .ok (possibilities ++ [v])
  | .nonSchema _ => .error .typeError

/-- Tuple._extend (src/oamap/schema.py lines 524-534): same unbound `value`
name in the loop header (the parameter is named `items`), hence NameError on
every Tuple construction or extend call. -/
def Tuple_extend (items start : List PyVal) : Except PyErr (List PyVal) :=
  .error .nameError

/-- Tuple.__init__ assigns the items property, which calls
Tuple._extend (src/oamap/schema.py lines 510-522). -/
def Tuple_init (items : List PyVal) : Except PyErr (List PyVal) :=
  Tuple_extend items []

/-- Tuple.__setitem__ (src/oamap/schema.py lines 552-555) tests
`isinstance(item, Schema)`, but no name `item` is bound (the parameter is
`value`), so even a valid Schema assignment raises NameError. -/
def Tuple_setitem (items : List PyVal) (index : Int) (v : PyVal) : Except PyErr (List PyVal) :=
  .error .nameError

/-- C5 (evaluation at the failing inputs): constructing a Union or Tuple from
a list holding one valid Schema, or assigning a valid Schema into a Tuple
slot, raises NameError instead of storing the element; Union.append, which
names its variables correctly, shows the intended behavior. -/
theorem claim_C5_union_tuple_extend_nameerror :
    Union_init [.schemaVal (.prim "f8" [] false none none)] = .error .nameError ∧
    Tuple_init [.schemaVal (.prim "f8" [] false none none)] = .error .nameError ∧
    Tuple_setitem [.schemaVal (.prim "f8" [] false none none)] 0
      (.schemaVal (.prim "f8" [] false none none)) = .error .nameError ∧
    Union_append [] (.schemaVal (.prim "f8" [] false none none)) =
      .ok [.schemaVal (.prim "f8" [] false none none)] :=
  ⟨rfl, rfl, rfl, rfl⟩

/-! ## Claim C6: the transformer's assignment rule (src/arrowed/compiler.py) -/

/-- The compile-time symbolic type attached to expressions
(src/arrowed/compiler.py lines 358-398).  The module-level singletons
`untracked` and `nullable` are separate constructors because do_Assign
compares against them with `is` (object identity); every other ArrowedType
object is `mk`, with its possibilities abstracted to the member ids
`parameter.reverse_members[id(x.schema)]` that __eq__ compares, and the
parameter object abstracted to its index (distinct parameters have distinct
indexes, matching `is` on parameter objects). -/
inductive AType
  | untracked
  | nullableLit
  | mk (possibilities : List Nat) (parameter : Option Nat) (isparameter : Bool) (nullable : Bool)
  deriving Repr, DecidableEq

/-- ArrowedType.setnullable (lines 368-372): a fresh ArrowedType with the
same possibilities and parameter, nullable set; the copy is never identical
to the `nullable` singleton. -/
def setnullable : AType → AType
  | .untracked => .mk [] none false true
  | .nullableLit => .mk [] none false true
  | .mk ps par isp _ => .mk ps par isp true

def possOf : AType → List Nat
  | .untracked => []
  | .nullableLit => []
  | .mk ps _ _ _ => ps

def paramOf : AType → Option Nat
  | .untracked => none
  | .nullableLit => none
  | .mk _ par _ _ => par

/-- ArrowedType.__eq__ (lines 391-392): same parameter object, equally many
possibilities, and pairwise equal member ids (isparameter/nullable flags are
not compared). -/
def atypeEq (a b : AType) : Bool :=
  decide (paramOf a = paramOf b) && decide (possOf a = possOf b)

/-- A tracked type: an ArrowedType tied to a parameter (a schema
substructure of that parameter). -/
def isTracked : AType → Bool
  | .mk _ (some _) _ _ => true
  | _ => false

def stLookup (st : List (String × AType)) (x : String) : Option AType :=
  st.lookup x

def stSet : List (String × AType) → String → AType → List (String × AType)
  | [], x, v => [(x, v)]
  | (y, w) :: t, x, v => if y = x then (y, v) :: t else (y, w) :: stSet t x v

/-- The Name-target branch of do_Assign (src/arrowed/compiler.py lines
604-622): an untracked right-hand side changes nothing; assigning None marks
the existing binding nullable (or binds the nullable singleton); a tracked
right-hand side passes silently when the previous binding is equal under
ArrowedType.__eq__, upgrades a nullable binding, raises TypeError ("cannot
use the same variable for different parts of a dataset structure") for any
other bound name, and creates fresh bindings otherwise. -/
def assignName (st : List (String × AType)) (lhs : String) (rhsA : AType) :
    Except PyErr (List (String × AType)) :=
  match rhsA with
  | .untracked => .ok st
  | .nullableLit =>
    match stLookup st lhs with
    | some v => .ok (stSet st lhs (setnullable v))
    | none => .ok (stSet st lhs .nullableLit)
  | .mk ps par isp nul =>
    match stLookup st lhs with
    | some v =>
      if v = AType.nullableLit then .ok (stSet st lhs (setnullable (.mk ps par isp nul)))
      else if atypeEq v (.mk ps par isp nul) then .ok st
      else .error .typeError
    | none => .ok (stSet st lhs (.mk ps par isp nul))

/-- C6: with x bound to a schema-tracked ArrowedType, rebinding x to a
tracked type over a different schema substructure (different originating
parameter or member ids) raises the compile-time TypeError; rebinding to an
equal substructure leaves the symbol table untouched; assigning None merely
marks the binding nullable, keeping its possibilities and parameter; a fresh
None assignment binds the schemaless nullable singleton. -/
theorem claim_C6_assign_rebinding (st : List (String × AType)) (x : String) (t t2 : AType) :
    (stLookup st x = some t → isTracked t = true → isTracked t2 = true →
      ((atypeEq t t2 = false → assignName st x t2 = .error .typeError) ∧
       (atypeEq t t2 = true → assignName st x t2 = .ok st) ∧
       (assignName st x .nullableLit = .ok (stSet st x (setnullable t)) ∧
        possOf (setnullable t) = possOf t ∧ paramOf (setnullable t) = paramOf t))) ∧
    (stLookup st x = none →
      assignName st x .nullableLit = .ok (stSet st x .nullableLit)) := by
  constructor
  · intro hlook htr htr2
    match t, htr with
    | .mk ps (some p) isp b, _ =>
      match t2, htr2 with
      | .mk ps2 par2 isp2 b2, _ =>
        refine ⟨?_, ?_, ?_, rfl, rfl⟩
        · intro hne
          simp only [assignName, hlook]
          rw [if_neg (by simp), if_neg (by simp [hne])]
        · intro heq
          simp only [assignName, hlook]
          rw [if_neg (by simp), if_pos heq]
        · simp only [assignName, hlook]
  · intro hlook
    simp only [assignName, hlook]

/-- Witness for C6: with x bound to member 1 of parameter 0, rebinding to
member 2 of the same parameter raises the TypeError. -/
theorem claim_C6_witness :
    assignName [("x", AType.mk [1] (some 0) false false)] "x"
      (.mk [2] (some 0) false false) = .error .typeError := by
  have h := (claim_C6_assign_rebinding [("x", AType.mk [1] (some 0) false false)] "x"
    (.mk [1] (some 0) false false) (.mk [2] (some 0) false false)).1 rfl rfl rfl
  exact h.1 (by decide)

/-! ## Claim C7: listget, the compiled subscript helper (src/arrowed/compiler.py) -/

/-- A typed-array element read with numpy negative-index wraparound (numba
performs no bounds checking here; an out-of-range read is undefined, hence
none). -/
def pyArrGet (a : List Int) (i : Int) : Option Int :=
  if 0 ≤ i then a.get? i.toNat
  else if 0 ≤ i + a.length then a.get? (i + a.length).toNat
  else none

/-- listget (src/arrowed/compiler.py lines 227-235): offset = begin[outer];
size = end[outer] - offset; a negative index has size added once; indexes
still outside [0, size) raise IndexError; otherwise offset + index. -/
def listget (begin end_ : List Int) (outerindex index : Int) : Option (Except PyErr Int) :=
  match pyArrGet begin outerindex, pyArrGet end_ outerindex with
  | some offset, some fin =>
    let size := fin - offset
    let index1 := if index < 0 then size + index else index
    if index1 < 0 ∨ size ≤ index1 then some (.error .indexError)
    else some (.ok (offset + index1))
  | _, _ => none

/-- The body do_Subscript plus implicit conversion emit for
`def f(x): return x[0]` with x typed as List(Primitive(int64))
(src/arrowed/compiler.py lines 947-972 and 554-571): the parameter root
becomes the placeholder literal 0, so the rewritten body is
`data[listget(starts, stops, 0, 0)]`. -/
def compiled_f_x0 (starts stops data : List Int) : Option (Except PyErr Int) :=
  match listget starts stops 0 0 with
  | none => none
  | some (.error e) => some (.error e)
  | some (.ok j) =>
    match pyArrGet data j with
    | none => none
    | some v => some (.ok v)

/-- C7: for a valid outer index, listget returns begin[o]+i for
0 <= i < end[o]-begin[o], wraps negative i once (begin[o]+size+i for
-size <= i < 0), and raises IndexError otherwise; consequently the compiled
f(x)=x[0] over starts=[0], stops=[3], data=[10,20,30] returns 10, and over
stops=[0] raises the bounds error. -/
theorem claim_C7_listget (begin end_ : List Int) (o i : Int)
    (h0 : 0 ≤ o) (h1 : o.toNat < begin.length) (h2 : o.toNat < end_.length) :
    ((0 ≤ i ∧ i < end_.getD o.toNat 0 - begin.getD o.toNat 0) →
      listget begin end_ o i = some (.ok (begin.getD o.toNat 0 + i))) ∧
    ((-(end_.getD o.toNat 0 - begin.getD o.toNat 0) ≤ i ∧ i < 0) →
      listget begin end_ o i =
        some (.ok (begin.getD o.toNat 0 + (end_.getD o.toNat 0 - begin.getD o.toNat 0) + i))) ∧
    ((¬ (0 ≤ i ∧ i < end_.getD o.toNat 0 - begin.getD o.toNat 0) ∧
        ¬ (-(end_.getD o.toNat 0 - begin.getD o.toNat 0) ≤ i ∧ i < 0)) →
      listget begin end_ o i = some (.error .indexError)) ∧
    compiled_f_x0 [0] [3] [10, 20, 30] = some (.ok 10) ∧
    compiled_f_x0 [0] [0] [10, 20, 30] = some (.error .indexError) := by
  have hb : pyArrGet begin o = some (begin.getD o.toNat 0) := by
    unfold pyArrGet
    rw [if_pos h0, List.get?_eq_getElem?, List.getElem?_eq_getElem h1,
      List.getD_eq_getElem _ _ h1]
  have he : pyArrGet end_ o = some (end_.getD o.toNat 0) := by
    unfold pyArrGet
    rw [if_pos h0, List.get?_eq_getElem?, List.getElem?_eq_getElem h2,
      List.getD_eq_getElem _ _ h2]
  refine ⟨?_, ?_, ?_, rfl, rfl⟩
  · rintro ⟨hi0, hilt⟩
    simp only [listget, hb, he]
    rw [if_neg (show ¬ i < 0 by omega), if_neg (by omega)]
  · rintro ⟨hige, hilt⟩
    simp only [listget, hb, he]
    rw [if_pos hilt, if_neg (by omega)]
    simp only [Option.some.injEq, Except.ok.injEq]
    ring
  · rintro ⟨hn1, hn2⟩
    simp only [listget, hb, he]
    by_cases hi : i < 0
    · rw [if_pos hi, if_pos (by omega)]
    · rw [if_neg hi, if_pos (by omega)]

/-- Witness for C7 at the spec's example values: listget([0], [3], 0, 0)
returns position 0. -/
theorem claim_C7_witness : listget [(0 : Int)] [3] 0 0 = some (.ok 0) :=
  (claim_C7_listget [0] [3] 0 0 (by decide) (by decide) (by decide)).1 ⟨by decide, by decide⟩

/-! ## Claim C8: DatasetArrays.getall and the virtual boundary arrays
(src/oamap/dataset.py lines 84-115 and 206-231) -/

/-- An array role: the namespace it belongs to and its name (StartsRole /
StopsRole / data roles compare by these). -/
structure Role where
  ns : String
  rn : String
  deriving Repr, DecidableEq

/-- A backend for one namespace: whether its connection object has a getall
method, and what array it serves for a role (`active[str(x)]` or
`active.getall(...)[x]`). -/
structure Backend where
  hasGetall : Bool
  fetch : Role → List Int

/-- Python dict assignment on the `out` mapping: update in place or append. -/
def dictSet : List (Role × List Int) → Role → List Int → List (Role × List Int)
  | [], k, v => [(k, v)]
  | (k2, v2) :: t, k, v => if k2 = k then (k2, v) :: t else (k2, v2) :: dictSet t k v

def dictGet (d : List (Role × List Int)) (k : Role) : Option (List Int) :=
  d.lookup k

/-- DatasetArrays._toplevel (src/oamap/dataset.py lines 214-231): if the
partition root's starts (resp. stops) role is among the namespace's filtered
roles, delete its first occurrence from filtered and bind it in `out` to the
virtual one-element array [0] (resp. [partition entry count]). -/
def dsaToplevel (startsrole stopsrole : Role) (numentries : Int)
    (out : List (Role × List Int)) (filtered : List Role) :
    List (Role × List Int) × List Role :=
  let p1 :=
    if startsrole ∈ filtered then
      (dictSet out startsrole [0], filtered.erase startsrole)
    else (out, filtered)
  if stopsrole ∈ p1.2 then
    (dictSet p1.1 stopsrole [numentries], p1.2.erase stopsrole)
  else p1

/-- DataArrays.getall (src/oamap/dataset.py lines 93-109), specialized by
DatasetArrays._toplevel: for each (namespace, backend), filter the requested
roles to the namespace, let _toplevel intercept the boundary roles, and when
any filtered role remains, instantiate the backend (recorded in the active
list) and fetch: through `active.getall(filtered)` when the connection has a
getall method, else through the dict-style loop `for x in roles:
out[x] = active[str(x)]` — which iterates ROLES, not filtered. -/
def dsaGetallGo (startsrole stopsrole : Role) (numentries : Int) (roles : List Role) :
    List (String × Backend) → List (Role × List Int) → List String →
    List (Role × List Int) × List String
  | [], out, active => (out, active)
  | (ns, bk) :: rest, out, active =>
    let pr := dsaToplevel startsrole stopsrole numentries out
      (roles.filter (fun x => x.ns == ns))
    if 0 < pr.2.length then
      dsaGetallGo startsrole stopsrole numentries roles rest
        (if bk.hasGetall then
          pr.2.foldl (fun o r => dictSet o r (bk.fetch r)) pr.1
        else
          roles.foldl (fun o r => dictSet o r (bk.fetch r)) pr.1)
        (active ++ [ns])
    else
      dsaGetallGo startsrole stopsrole numentries roles rest pr.1 active

def dsaGetall (backends : List (String × Backend)) (startsrole stopsrole : Role)
    (numentries : Int) (roles : List Role) : List (Role × List Int) × List String :=
  dsaGetallGo startsrole stopsrole numentries roles backends [] []

def srC8 : Role := ⟨"ns", "starts"⟩
def spC8 : Role := ⟨"ns", "stops"⟩
def drC8 : Role := ⟨"ns", "data"⟩

/-- A dict-style backend connection (no getall method) serving [99] for
every role. -/
def dictBackend : Backend := ⟨false, fun _ => [99]⟩

/-- A getall-style backend connection serving [99] for every role. -/
def getallBackend : Backend := ⟨true, fun _ => [99]⟩

/-- C8 (evaluation at the failing input): with a dict-style backend and a
request for the root starts/stops roles plus one data role, the dict-style
loop iterates all requested roles and overwrites the virtual [0]/[count]
bindings with backend arrays, contradicting the claim that those two roles
are never fetched from a backend; with a getall-style backend the virtual
bindings survive, and a request containing only boundary roles never
instantiates the backend at all. -/
theorem claim_C8_getall_overwrites_virtual_boundaries :
    dictGet (dsaGetall [("ns", dictBackend)] srC8 spC8 4 [srC8, spC8, drC8]).1 srC8 =
      some [99] ∧
    dictGet (dsaGetall [("ns", dictBackend)] srC8 spC8 4 [srC8, spC8, drC8]).1 spC8 =
      some [99] ∧
    (some [99] : Option (List Int)) ≠ some [(0 : Int)] ∧
    (some [99] : Option (List Int)) ≠ some [(4 : Int)] ∧
    dictGet (dsaGetall [("ns", getallBackend)] srC8 spC8 4 [srC8, spC8, drC8]).1 srC8 =
      some [0] ∧
    dictGet (dsaGetall [("ns", getallBackend)] srC8 spC8 4 [srC8, spC8, drC8]).1 spC8 =
      some [4] ∧
    (dsaGetall [("ns", dictBackend)] srC8 spC8 4 [srC8, spC8]).2 = [] :=
  ⟨rfl, rfl, by decide, by decide, rfl, rfl, rfl⟩
